import Mathlib

/-!
# Verification of tetra's text-rendering core and texture upload API

This file is a shallow embedding, in Lean 4, of the text/font-cache/atlas
subsystem and the texture upload API of the `tetra` 2D rendering engine
(files `src/graphics/text.rs` and `src/graphics/texture.rs`).

Conventions of the embedding:
* Rust's `f32` coordinates are modelled as `ℚ` (the verified claims concern
  control flow, caching and ordering, not floating-point rounding).
* `Rc<RefCell<...>>` shared mutable state is modelled by explicit state
  threading: functions take the state as an argument and return the updated
  state.
* Fallible Rust functions returning `Result` are modelled with `Except` /
  `Option`; a Rust `panic!` / `expect` is modelled as `Option.none` of the
  enclosing operation.
* GPU side effects are modelled as an append-only event log on the device /
  context, so that "same device effect" is equality of logs.

Components whose Rust source is not available (the `platform` graphics
device, `text/cache.rs`, `text/packer.rs`) are modelled from the
specification; their doc comments say so explicitly.
-/

namespace Tetra

/-- Filtering algorithms usable when scaling an image
(`texture.rs`, `enum FilterMode`). -/
inductive FilterMode where
  | Nearest
  | Linear
deriving DecidableEq, Repr

/-- A raw GPU texture handle, as handed out by the graphics device.
The platform layer is not in the sources; an opaque id plus the dimensions
suffices for the claims under check. -/
structure RawTexture where
  id : Nat
  width : Int
  height : Int
deriving DecidableEq, Repr

/-- The error kinds relevant to the verified claims
(`TetraError::NotEnoughData { expected, actual }` and `PlatformError`). -/
inductive TetraError where
  | NotEnoughData (expected : Nat) (actual : Nat)
  | PlatformError (msg : String)
deriving DecidableEq, Repr

/-- One observable GPU-device side effect. -/
inductive DeviceEvent where
  | newTexture (t : RawTexture)
  | uploadData (t : RawTexture) (x y width height : Int) (data : List Nat)
  | setFilter (t : RawTexture) (fm : FilterMode)
deriving DecidableEq, Repr

/-- Modelled from the spec: the GPU Device collaborator (§6), whose Rust
source (`platform` module) is not under `src/`.  The device is an id
generator plus an append-only log of its observable effects. -/
structure GraphicsDevice where
  nextId : Nat
  log : List DeviceEvent
deriving DecidableEq, Repr

/-- Modelled from the spec: `new_texture(width, height) -> handle` (§6).
The success path hands out a fresh handle; driver rejection
(`PlatformError`) is not needed by the claims under check. -/
def GraphicsDevice.new_texture (d : GraphicsDevice) (width height : Int) :
    RawTexture × GraphicsDevice :=
  let t : RawTexture := ⟨d.nextId, width, height⟩
  (t, { nextId := d.nextId + 1, log := d.log ++ [DeviceEvent.newTexture t] })

/-- Modelled from the spec: `set_texture_data(handle, pixels, x, y, w, h)`
(§6) together with the `NotEnoughData` texture-upload contract (§7): the
caller must supply at least `w * h * 4` bytes of RGBA data for the target
rectangle; fewer bytes are "always surfaced to the caller, never silently
zero-filled", and excess data is truncated. -/
def GraphicsDevice.set_texture_data (d : GraphicsDevice) (t : RawTexture)
    (data : List Nat) (x y width height : Int) :
    Except TetraError GraphicsDevice :=
  let expected := (width * height * 4).toNat
  if data.length < expected then
    Except.error (TetraError.NotEnoughData expected data.length)
  else
    Except.ok
      { d with log := d.log ++ [DeviceEvent.uploadData t x y width height (data.take expected)] }

/-- Modelled from the spec: `set_texture_filter_mode` (§6). -/
def GraphicsDevice.set_texture_filter_mode (d : GraphicsDevice) (t : RawTexture)
    (fm : FilterMode) : GraphicsDevice :=
  { d with log := d.log ++ [DeviceEvent.setFilter t fm] }

/-- `TextureSharedData` (`texture.rs`): the texture handle plus the
interior-mutable filter mode, modelled by value. -/
structure TextureSharedData where
  handle : RawTexture
  filter_mode : FilterMode
deriving DecidableEq, Repr

/-- `Texture` (`texture.rs`): reference-counted shared data, modelled by
value. -/
structure Texture where
  data : TextureSharedData
deriving DecidableEq, Repr

/-- The graphics-context state consumed by the texture API
(`ctx.graphics.default_filter_mode`). -/
structure GraphicsState where
  default_filter_mode : FilterMode
deriving DecidableEq, Repr

/-- The slice of `Context` that the embedded functions touch: the graphics
device and the graphics state. -/
structure Context where
  device : GraphicsDevice
  graphics : GraphicsState
deriving DecidableEq, Repr

/-- `Texture::with_device` (`texture.rs` lines 143–161): create the GPU
texture, upload the initial data, apply the requested filter mode to the
GPU — but record `FilterMode::Linear` in the shared data, exactly as the
source does. -/
def Texture.with_device (device : GraphicsDevice) (width height : Int)
    (data : List Nat) (filter_mode : FilterMode) :
    Except TetraError (Texture × GraphicsDevice) :=
  match ((device.new_texture width height).2).set_texture_data
      (device.new_texture width height).1 data 0 0 width height with
  | Except.error e => Except.error e
  | Except.ok device2 =>
    Except.ok
      ({ data :=
          { handle := (device.new_texture width height).1,
            filter_mode := FilterMode.Linear } },
        device2.set_texture_filter_mode (device.new_texture width height).1 filter_mode)

/-- `Texture::with_device_empty` (`texture.rs` lines 163–178): create the
GPU texture with no initial upload and store the passed filter mode. -/
def Texture.with_device_empty (device : GraphicsDevice) (width height : Int)
    (filter_mode : FilterMode) : Except TetraError (Texture × GraphicsDevice) :=
  Except.ok
    ({ data :=
        { handle := (device.new_texture width height).1,
          filter_mode := filter_mode } },
      ((device.new_texture width height).2).set_texture_filter_mode
        (device.new_texture width height).1 filter_mode)

/-- `Texture::from_rgba` (`texture.rs` lines 133–141). -/
def Texture.from_rgba (ctx : Context) (width height : Int) (data : List Nat) :
    Except TetraError (Texture × Context) :=
  (Texture.with_device ctx.device width height data
      ctx.graphics.default_filter_mode).map
    fun td => (td.1, { ctx with device := td.2 })

/-- `Texture::width` (`texture.rs`). -/
def Texture.width (t : Texture) : Int :=
  t.data.handle.width

/-- `Texture::height` (`texture.rs`). -/
def Texture.height (t : Texture) : Int :=
  t.data.handle.height

/-- `Texture::size` (`texture.rs`). -/
def Texture.size (t : Texture) : Int × Int :=
  (t.data.handle.width, t.data.handle.height)

/-- `Texture::filter_mode` (`texture.rs` lines 308–310). -/
def Texture.filter_mode (t : Texture) : FilterMode :=
  t.data.filter_mode

/-- `Texture::set_data` (`texture.rs` lines 338–349): forwards directly to
the device's `set_texture_data`. -/
def Texture.set_data (t : Texture) (ctx : Context) (x y width height : Int)
    (data : List Nat) : Except TetraError Context :=
  (ctx.device.set_texture_data t.data.handle data x y width height).map
    fun d => { ctx with device := d }

/-- `Texture::replace_data` (`texture.rs` lines 364–367): writes the whole
texture via `set_data` at origin with the texture's own size. -/
def Texture.replace_data (t : Texture) (ctx : Context) (data : List Nat) :
    Except TetraError Context :=
  let wh := t.size
  t.set_data ctx 0 0 wh.1 wh.2 data

/-! ## Rectangle Packer

`src/graphics/text/packer.rs` is not under `src/`; the packer is modelled
from the spec, §4.1: a fixed-width, growable-height shelf packer.  Each
shelf additionally records the history of rectangles placed into it, so
that the packing invariants (non-overlap, containment, position
stability) can be stated about every rectangle ever returned. -/

/-- An integer-origin rectangle `(x, y, width, height)` within the atlas
texture (spec §3, `AtlasRect`). -/
structure AtlasRect where
  x : Nat
  y : Nat
  width : Nat
  height : Nat
deriving DecidableEq, Repr

/-- Modelled from the spec: one horizontal shelf of the packer (§4.1,
"track the current height used by each horizontal shelf").  `y` is the
shelf's top, `height` its height, `fill` the width already used.
`rects` is the placement history of this shelf. -/
structure Shelf where
  y : Nat
  height : Nat
  fill : Nat
  rects : List AtlasRect
deriving DecidableEq, Repr

/-- Modelled from the spec: the Packer State (§3): fixed atlas width,
monotonically growing atlas height (bounded by an engine-imposed
`maxHeight`), and the shelf structure. -/
structure Packer where
  width : Nat
  maxHeight : Nat
  atlasHeight : Nat
  usedHeight : Nat
  shelves : List Shelf
deriving DecidableEq, Repr

/-- A shelf fits a `w × h` request when the rectangle's height fits the
shelf and the shelf's remaining width can take it (spec §4.1). -/
def shelfFits (width w h : Nat) (s : Shelf) : Bool :=
  decide (h ≤ s.height) && decide (s.fill + w ≤ width)

/-- Tie-break key of spec §4.1: leftover height, then leftover width,
then y-origin (all minimised). -/
def shelfKey (width w h : Nat) (s : Shelf) : Nat × Nat × Nat :=
  (s.height - h, width - (s.fill + w), s.y)

/-- Strict lexicographic comparison of tie-break keys. -/
def keyLt (a b : Nat × Nat × Nat) : Bool :=
  if a.1 < b.1 then true
  else if b.1 < a.1 then false
  else if a.2.1 < b.2.1 then true
  else if b.2.1 < a.2.1 then false
  else decide (a.2.2 < b.2.2)

/-- Pair each shelf with its index, starting from `i`. -/
def withIdx (i : Nat) : List Shelf → List (Nat × Shelf)
  | [] => []
  | s :: rest => (i, s) :: withIdx (i + 1) rest

/-- Choose the candidate shelf minimising the tie-break key (first
candidate wins ties, which is the lowest y among the fitting shelves). -/
def pickBest (width w h : Nat) (cands : List (Nat × Shelf)) : Option (Nat × Shelf) :=
  cands.foldl
    (fun best c =>
      match best with
      | none => some c
      | some b =>
        if keyLt (shelfKey width w h c.2) (shelfKey width w h b.2) then some c else some b)
    none

/-- Modelled from the spec: result of `allocate(width, height) ->
AtlasRect | GrowthRequired(new_height)`, or `AtlasFull` (§4.1). -/
inductive AllocResult where
  | placed (rect : AtlasRect) (packer : Packer)
  | growthRequired (newHeight : Nat)
  | atlasFull
deriving DecidableEq, Repr

/-- Modelled from the spec: `allocate` (§4.1).  Place into the best
fitting shelf; otherwise start a new shelf at the bottom; if that does
not fit the current atlas height, request growth (within the engine
limit) or fail with `AtlasFull`. -/
def Packer.allocate (p : Packer) (w h : Nat) : AllocResult :=
  match pickBest p.width w h
      ((withIdx 0 p.shelves).filter fun c => shelfFits p.width w h c.2) with
  | some is =>
    AllocResult.placed ⟨is.2.fill, is.2.y, w, h⟩
      { p with
          shelves := p.shelves.set is.1
            { is.2 with
                fill := is.2.fill + w, rects := is.2.rects ++ [⟨is.2.fill, is.2.y, w, h⟩] } }
  | none =>
    if p.usedHeight + h ≤ p.atlasHeight then
      AllocResult.placed ⟨0, p.usedHeight, w, h⟩
        { p with
            shelves := p.shelves ++
              [{ y := p.usedHeight, height := h, fill := w,
                 rects := [⟨0, p.usedHeight, w, h⟩] }],
            usedHeight := p.usedHeight + h }
    else if p.usedHeight + h ≤ p.maxHeight then
      AllocResult.growthRequired (p.usedHeight + h)
    else
      AllocResult.atlasFull

/-- Modelled from the spec: the caller resizes the backing store to the
requested height before the placement is committed (§4.1). -/
def Packer.grow (p : Packer) (newHeight : Nat) : Packer :=
  { p with atlasHeight := newHeight }

/-- The allocate-and-grow driver used by the Glyph Atlas: on
`GrowthRequired`, grow the atlas and retry once; the `Bool` reports
whether a growth (texture replacement) happened.  `none` is `AtlasFull`. -/
def Packer.allocateGrow (p : Packer) (w h : Nat) : Option (AtlasRect × Packer × Bool) :=
  match p.allocate w h with
  | AllocResult.placed r p' => some (r, p', false)
  | AllocResult.growthRequired newHeight =>
    match (p.grow newHeight).allocate w h with
    | AllocResult.placed r p' => some (r, p', true)
    | _ => none
  | AllocResult.atlasFull => none

/-- A fresh packer with no shelves. -/
def Packer.new (width maxHeight initialHeight : Nat) : Packer :=
  { width := width, maxHeight := maxHeight, atlasHeight := initialHeight,
    usedHeight := 0, shelves := [] }

/-- All rectangles ever placed into a list of shelves, in shelf order. -/
def joinRects (l : List Shelf) : List AtlasRect :=
  (l.map Shelf.rects).flatten

/-- All rectangles ever placed by the packer. -/
def Packer.allPlaced (p : Packer) : List AtlasRect :=
  joinRects p.shelves

/-- Two atlas rectangles do not overlap: they are separated on some
axis. -/
def rectDisjoint (a b : AtlasRect) : Prop :=
  a.x + a.width ≤ b.x ∨ b.x + b.width ≤ a.x ∨
    a.y + a.height ≤ b.y ∨ b.y + b.height ≤ a.y

/-- A rectangle lies fully within the packer's current atlas bounds. -/
def rectInBounds (r : AtlasRect) (p : Packer) : Prop :=
  r.x + r.width ≤ p.width ∧ r.y + r.height ≤ p.atlasHeight

/-- The placement history of a shelf at vertical band `(y, sh)` tiles the
horizontal interval from `x` to `e` with consecutive, positive-width
rectangles that fit the band. -/
def tiles (y sh : Nat) : Nat → List AtlasRect → Nat → Prop
  | x, [], e => x = e
  | x, r :: rest, e =>
      r.x = x ∧ r.y = y ∧ 0 < r.width ∧ 0 < r.height ∧ r.height ≤ sh ∧
        tiles y sh (x + r.width) rest e

/-- Well-formedness of one shelf relative to the atlas width. -/
def ShelfWF (width : Nat) (s : Shelf) : Prop :=
  0 < s.height ∧ s.fill ≤ width ∧ tiles s.y s.height 0 s.rects s.fill

/-- The shelves, starting at vertical position `n`, are stacked
consecutively and each is well-formed. -/
def stacked (width : Nat) : Nat → List Shelf → Prop
  | _, [] => True
  | n, s :: rest => s.y = n ∧ ShelfWF width s ∧ stacked width (n + s.height) rest

/-- The vertical position just below the last shelf, starting from `n`. -/
def shelvesEnd : Nat → List Shelf → Nat
  | n, [] => n
  | n, s :: rest => shelvesEnd (n + s.height) rest

/-- Packer invariant: shelves stacked from the top, `usedHeight` is the
bottom of the last shelf, and everything fits the current atlas height. -/
def Packer.WF (p : Packer) : Prop :=
  stacked p.width 0 p.shelves ∧ p.usedHeight = shelvesEnd 0 p.shelves ∧
    p.usedHeight ≤ p.atlasHeight

/-- Run a sequence of allocation requests, collecting the successfully
returned rectangles (failed requests are skipped). -/
def runAllocs (p : Packer) : List (Nat × Nat) → List AtlasRect × Packer
  | [] => ([], p)
  | wh :: rest =>
    match p.allocateGrow wh.1 wh.2 with
    | some rpg => (rpg.1 :: (runAllocs rpg.2.1 rest).1, (runAllocs rpg.2.1 rest).2)
    | none => runAllocs p rest

/-! ## Glyph Atlas, Font Cache and Text

`src/graphics/text/cache.rs` is not under `src/`; the Glyph Atlas and the
Font Cache are modelled from the spec (§4.2, §4.3).  `Text` itself is
embedded from `src/graphics/text.rs`. -/

/-- `graphics::Rectangle` with `f32` fields modelled as `ℚ`. -/
structure Rectangle where
  x : ℚ
  y : ℚ
  width : ℚ
  height : ℚ
deriving DecidableEq, Repr

/-- `Rectangle::right()`. -/
def Rectangle.right (r : Rectangle) : ℚ :=
  r.x + r.width

/-- `Rectangle::bottom()`. -/
def Rectangle.bottom (r : Rectangle) : ℚ :=
  r.y + r.height

/-- One textured quad of a text geometry: position rectangle in layout
space and UV rectangle in atlas-relative `[0,1]` space (spec §3). -/
structure Quad where
  position : Rectangle
  uv : Rectangle
deriving DecidableEq, Repr

/-- The `TextGeometry` cached by a `Text`: the quads, the overall bounds
(absent for empty text), and the generation counter value at generation
time (the `resize_count` field read by `text.rs`). -/
structure TextGeometry where
  quads : List Quad
  bounds : Option Rectangle
  resize_count : Nat
deriving DecidableEq, Repr

/-- Modelled from the spec: the Glyph Atlas (§4.2): the packer, the
mapping from glyph id to placement, the Generation Counter (incremented
once per texture replacement) and the current backing-texture id (replaced
on growth).  The pixel upload itself happens on the GPU device and is not
part of the atlas state. -/
structure GlyphAtlas where
  packer : Packer
  mapping : List (Char × AtlasRect)
  resize_count : Nat
  textureId : Nat
deriving DecidableEq, Repr

/-- Association-list lookup for the glyph-placement mapping. -/
def lookupGlyph : List (Char × AtlasRect) → Char → Option AtlasRect
  | [], _ => none
  | cr :: rest, g => if cr.1 = g then some cr.2 else lookupGlyph rest g

/-- Modelled from the spec: `place(glyph_id, width, height, pixels) ->
AtlasRect` (§4.2).  First checks the existing mapping and returns it
unchanged if present; otherwise allocates through the packer, growing the
backing texture (and bumping the Generation Counter by exactly one per
texture replacement) when needed.  `none` is `AtlasFull`. -/
def GlyphAtlas.place (a : GlyphAtlas) (glyph_id : Char) (w h : Nat) :
    Option (AtlasRect × GlyphAtlas) :=
  match lookupGlyph a.mapping glyph_id with
  | some rect => some (rect, a)
  | none =>
    match a.packer.allocateGrow w h with
    | some rpg =>
      some (rpg.1,
        { packer := rpg.2.1,
          mapping := a.mapping ++ [(glyph_id, rpg.1)],
          resize_count := a.resize_count + (if rpg.2.2 then 1 else 0),
          textureId := a.textureId + (if rpg.2.2 then 1 else 0) })
    | none => none

/-- Metrics returned by the rasterizer/shaper collaborator for one glyph
(§6): bitmap size, advance and bearing. -/
structure GlyphMetrics where
  width : Nat
  height : Nat
  advance : ℚ
  bearing_x : ℚ
  bearing_y : ℚ
deriving DecidableEq, Repr

/-- Association-list lookup for the rasterizer's glyph table. -/
def lookupMetrics : List (Char × GlyphMetrics) → Char → Option GlyphMetrics
  | [], _ => none
  | cm :: rest, g => if cm.1 = g then some cm.2 else lookupMetrics rest g

/-- Modelled from the spec: the Font Cache (§4.3): the rasterizer
collaborator (modelled as a finite glyph table), the line height, and the
owned Glyph Atlas. -/
structure FontCache where
  glyphs : List (Char × GlyphMetrics)
  line_height : ℚ
  atlas : GlyphAtlas
deriving DecidableEq, Repr

/-- `FontCache::resize_count()`: the cheap accessor for the current
Generation Counter (§4.3), read by `Text::update_geometry`. -/
def FontCache.resize_count (fc : FontCache) : Nat :=
  fc.atlas.resize_count

/-- The id of the cache's current atlas texture (`data.texture()` in
`Text::draw`). -/
def FontCache.textureId (fc : FontCache) : Nat :=
  fc.atlas.textureId

/-- The running state of one `render` pass: pen position, quads emitted so
far, and the (possibly grown) atlas. -/
structure RenderState where
  pen_x : ℚ
  pen_y : ℚ
  quads : List Quad
  atlas : GlyphAtlas
deriving DecidableEq, Repr

/-- Modelled from the spec: processing of one character during `render`
(§4.3): newline resets the horizontal pen and advances the vertical pen by
the line height; a character the rasterizer cannot produce is skipped
(graceful degradation, §7); whitespace (zero-area bitmap) advances the pen
without emitting a quad; otherwise the glyph is placed in the atlas and a
quad is emitted whose UV rect is the placement normalised by the current
atlas dimensions; `AtlasFull` skips the glyph (§7 recommended policy). -/
def renderChar (line_height : ℚ) (glyphs : List (Char × GlyphMetrics))
    (st : RenderState) (c : Char) : RenderState :=
  if c = '\n' then
    { st with pen_x := 0, pen_y := st.pen_y + line_height }
  else
    match lookupMetrics glyphs c with
    | none => st
    | some m =>
      if m.width = 0 ∨ m.height = 0 then
        { st with pen_x := st.pen_x + m.advance }
      else
        match st.atlas.place c m.width m.height with
        | none => st
        | some ra =>
          { pen_x := st.pen_x + m.advance,
            pen_y := st.pen_y,
            quads := st.quads ++
              [{ position := ⟨st.pen_x + m.bearing_x, st.pen_y + m.bearing_y,
                   (m.width : ℚ), (m.height : ℚ)⟩,
                 uv := ⟨(ra.1.x : ℚ) / (ra.2.packer.width : ℚ),
                   (ra.1.y : ℚ) / (ra.2.packer.atlasHeight : ℚ),
                   (ra.1.width : ℚ) / (ra.2.packer.width : ℚ),
                   (ra.1.height : ℚ) / (ra.2.packer.atlasHeight : ℚ)⟩ }],
            atlas := ra.2 }

/-- The smallest rectangle containing both arguments. -/
def rectUnion (a b : Rectangle) : Rectangle :=
  ⟨min a.x b.x, min a.y b.y,
   max a.right b.right - min a.x b.x,
   max a.bottom b.bottom - min a.y b.y⟩

/-- The overall bounding rectangle of the emitted quads; absent when no
quad was emitted (spec §3: "or absence if the text is empty"). -/
def computeBounds : List Quad → Option Rectangle
  | [] => none
  | q :: rest => some ((rest.map Quad.position).foldl rectUnion q.position)

/-- Modelled from the spec: `render(text) -> TextGeometry` (§4.3): fold
over the characters in logical order and return the geometry together
with the current Generation Counter value, alongside the updated cache. -/
def FontCache.render (fc : FontCache) (content : String) : TextGeometry × FontCache :=
  let st := content.toList.foldl (renderChar fc.line_height fc.glyphs)
    { pen_x := 0, pen_y := 0, quads := [], atlas := fc.atlas }
  ({ quads := st.quads, bounds := computeBounds st.quads,
     resize_count := st.atlas.resize_count },
   { fc with atlas := st.atlas })

/-- `Text` (`text.rs` lines 114–119): content, font and the optional
cached geometry.  The `Rc<RefCell<FontCache>>` behind `Font` is modelled
by value: operations that mutate the shared cache return it inside the
updated `Text`. -/
structure Text where
  content : String
  font : FontCache
  geometry : Option TextGeometry
deriving DecidableEq, Repr

/-- `Text::new` (`text.rs` lines 123–132). -/
def Text.new (content : String) (font : FontCache) : Text :=
  { content := content, font := font, geometry := none }

/-- `Text::update_geometry` (`text.rs` lines 241–253): render if there is
no cached geometry or its generation does not match the cache's current
generation.  The returned `Bool` reports whether `render` was invoked. -/
def Text.update_geometry (t : Text) : Text × Bool :=
  let needs_render :=
    match t.geometry with
    | none => true
    | some g => g.resize_count != t.font.resize_count
  if needs_render then
    ({ t with
        geometry := some (t.font.render t.content).1,
        font := (t.font.render t.content).2 }, true)
  else
    (t, false)

/-- `DrawParams`: the draw parameters passed through unchanged to every
`push_quad` call; their interpretation belongs to the renderer. -/
structure DrawParams where
  position : ℚ × ℚ
  scale : ℚ × ℚ
  origin : ℚ × ℚ
  rotation : ℚ
deriving DecidableEq, Repr

/-- The observable events of a `Text::draw` call, in order: a `render`
of the font cache, the `set_texture` call, and the `push_quad` calls. -/
inductive DrawEvent where
  | rendered
  | setTexture (textureId : Nat)
  | pushQuad (x1 y1 x2 y2 u1 v1 u2 v2 : ℚ) (params : DrawParams)
deriving DecidableEq, Repr

/-- The `push_quad` event emitted for one cached quad
(`text.rs` lines 151–164). -/
def quadEvent (params : DrawParams) (quad : Quad) : DrawEvent :=
  DrawEvent.pushQuad quad.position.x quad.position.y
    quad.position.right quad.position.bottom
    quad.uv.x quad.uv.y quad.uv.right quad.uv.bottom params

/-- Whether an event is a `push_quad` submission. -/
def DrawEvent.isPush : DrawEvent → Bool
  | DrawEvent.pushQuad _ _ _ _ _ _ _ _ _ => true
  | _ => false

/-- `Text::draw` (`text.rs` lines 135–165): update the geometry, set the
font's texture, then push one quad per cached quad, in order.  `none`
models the `expect("geometry should have been generated")` panic. -/
def Text.draw (t : Text) (params : DrawParams) : Option (Text × List DrawEvent) :=
  match t.update_geometry with
  | (t', didRender) =>
    match t'.geometry with
    | none => none
    | some geometry =>
      some (t',
        (if didRender then [DrawEvent.rendered] else []) ++
          DrawEvent.setTexture t'.font.textureId ::
            geometry.quads.map (quadEvent params))

/-- `Text::get_bounds` (`text.rs` lines 232–239).  `none` models the
`expect("geometry should have been generated")` panic. -/
def Text.get_bounds (t : Text) : Option (Text × Option Rectangle) :=
  match t.update_geometry with
  | (t', _) =>
    match t'.geometry with
    | none => none
    | some g => some (t', g.bounds)

/-- `Text::set_content` (`text.rs` lines 176–182): drop the cached
geometry, then store the new content. -/
def Text.set_content (t : Text) (content : String) : Text :=
  { t with geometry := none, content := content }

/-- `Text::set_font` (`text.rs` lines 193–196). -/
def Text.set_font (t : Text) (font : FontCache) : Text :=
  { t with geometry := none, font := font }

/-- `Text::push` (`text.rs` lines 202–205). -/
def Text.push (t : Text) (ch : Char) : Text :=
  { t with geometry := none, content := t.content.push ch }

/-- `Text::push_str` (`text.rs` lines 211–214). -/
def Text.push_str (t : Text) (string : String) : Text :=
  { t with geometry := none, content := t.content ++ string }

/-- `Text::pop` (`text.rs` lines 222–225): drop the cached geometry,
remove and return the last character. -/
def Text.pop (t : Text) : Text × Option Char :=
  match t.content.toList.reverse with
  | [] => ({ t with geometry := none }, none)
  | c :: rest => ({ t with geometry := none, content := String.mk rest.reverse }, some c)

/-! ### Packer lemmas -/

theorem tiles_le {y sh : Nat} (rects : List AtlasRect) : ∀ {x e : Nat},
    tiles y sh x rects e → x ≤ e := by
  induction rects with
  | nil =>
    intro x e h
    exact Nat.le_of_eq h
  | cons r rest ih =>
    intro x e h
    simp only [tiles] at h
    exact le_trans (Nat.le_add_right x r.width) (ih h.2.2.2.2.2)

theorem tiles_mem {y sh : Nat} (rects : List AtlasRect) : ∀ {x e : Nat},
    tiles y sh x rects e → ∀ r ∈ rects,
      x ≤ r.x ∧ r.x + r.width ≤ e ∧ r.y = y ∧ 0 < r.width ∧ 0 < r.height ∧
        r.height ≤ sh := by
  induction rects with
  | nil =>
    intro x e _ r hr
    cases hr
  | cons r0 rest ih =>
    intro x e h r hr
    simp only [tiles] at h
    obtain ⟨hx, hy, hw, hh, hsh, ht⟩ := h
    rcases List.mem_cons.mp hr with rfl | hr'
    · have hle := tiles_le rest ht
      exact ⟨Nat.le_of_eq hx.symm, by omega, hy, hw, hh, hsh⟩
    · have h2 := ih ht r hr'
      exact ⟨le_trans (Nat.le_add_right x r0.width) h2.1, h2.2⟩

theorem tiles_pairwise {y sh : Nat} (rects : List AtlasRect) : ∀ {x e : Nat},
    tiles y sh x rects e → rects.Pairwise fun a b => a.x + a.width ≤ b.x := by
  induction rects with
  | nil =>
    intro x e _
    exact List.Pairwise.nil
  | cons r0 rest ih =>
    intro x e h
    simp only [tiles] at h
    obtain ⟨hx, -, -, -, -, ht⟩ := h
    refine List.Pairwise.cons (fun b hb => ?_) (ih ht)
    have hmem := (tiles_mem rest ht b hb).1
    omega

theorem tiles_append {y sh : Nat} (rects : List AtlasRect) : ∀ {x e w h : Nat},
    tiles y sh x rects e → 0 < w → 0 < h → h ≤ sh →
    tiles y sh x (rects ++ [⟨e, y, w, h⟩]) (e + w) := by
  induction rects with
  | nil =>
    intro x e w h ht hw hh hsh
    have hxe : x = e := ht
    subst hxe
    exact ⟨rfl, rfl, hw, hh, hsh, rfl⟩
  | cons r0 rest ih =>
    intro x e w h ht hw hh hsh
    simp only [List.cons_append, tiles] at ht ⊢
    obtain ⟨hx, hy, hw0, hh0, hsh0, ht'⟩ := ht
    exact ⟨hx, hy, hw0, hh0, hsh0, ih ht' hw hh hsh⟩

theorem shelvesEnd_ge (shelves : List Shelf) : ∀ n : Nat, n ≤ shelvesEnd n shelves := by
  induction shelves with
  | nil =>
    intro n
    exact le_refl n
  | cons s rest ih =>
    intro n
    exact le_trans (Nat.le_add_right n s.height) (ih (n + s.height))

theorem stacked_shelf_mem {width : Nat} (shelves : List Shelf) : ∀ {n : Nat},
    stacked width n shelves → ∀ s ∈ shelves,
      ShelfWF width s ∧ n ≤ s.y ∧ s.y + s.height ≤ shelvesEnd n shelves := by
  induction shelves with
  | nil =>
    intro n _ s hs
    cases hs
  | cons s0 rest ih =>
    intro n h s hs
    simp only [stacked] at h
    obtain ⟨hy, hwf, hrest⟩ := h
    rcases List.mem_cons.mp hs with rfl | hs'
    · refine ⟨hwf, Nat.le_of_eq hy.symm, ?_⟩
      have := shelvesEnd_ge rest (n + s.height)
      simp only [shelvesEnd]
      omega
    · have h2 := ih hrest s hs'
      refine ⟨h2.1, le_trans (Nat.le_add_right n s0.height) h2.2.1, ?_⟩
      simpa only [shelvesEnd] using h2.2.2

theorem mem_joinRects {a : AtlasRect} {l : List Shelf} :
    a ∈ joinRects l ↔ ∃ s ∈ l, a ∈ s.rects := by
  simp [joinRects, List.mem_flatten]

theorem joinRects_cons (s : Shelf) (rest : List Shelf) :
    joinRects (s :: rest) = s.rects ++ joinRects rest := by
  simp [joinRects]

theorem stacked_disjoint {width : Nat} (shelves : List Shelf) : ∀ {n : Nat},
    stacked width n shelves → (joinRects shelves).Pairwise rectDisjoint := by
  induction shelves with
  | nil =>
    intro n _
    exact List.Pairwise.nil
  | cons s0 rest ih =>
    intro n h
    simp only [stacked] at h
    obtain ⟨hy, hwf, hrest⟩ := h
    rw [joinRects_cons, List.pairwise_append]
    refine ⟨?_, ih hrest, ?_⟩
    · exact (tiles_pairwise s0.rects hwf.2.2).imp fun hab => Or.inl hab
    · intro a ha b hb
      obtain ⟨s', hs', hbs'⟩ := mem_joinRects.mp hb
      have h1 := stacked_shelf_mem rest hrest s' hs'
      have h2 := tiles_mem s'.rects h1.1.2.2 b hbs'
      have h3 := tiles_mem s0.rects hwf.2.2 a ha
      have hay : a.y = s0.y := h3.2.2.1
      have hah : a.height ≤ s0.height := h3.2.2.2.2.2
      have hby : b.y = s'.y := h2.2.2.1
      have hsy : n + s0.height ≤ s'.y := h1.2.1
      right; right; left
      omega

theorem stacked_bounds {width : Nat} (shelves : List Shelf) {n : Nat}
    (h : stacked width n shelves) : ∀ r ∈ joinRects shelves,
      r.x + r.width ≤ width ∧ r.y + r.height ≤ shelvesEnd n shelves := by
  intro r hr
  obtain ⟨s, hs, hrs⟩ := mem_joinRects.mp hr
  have h1 := stacked_shelf_mem shelves h s hs
  have h2 := tiles_mem s.rects h1.1.2.2 r hrs
  have hfw : s.fill ≤ width := h1.1.2.1
  have hxw : r.x + r.width ≤ s.fill := h2.2.1
  have hry : r.y = s.y := h2.2.2.1
  have hrh : r.height ≤ s.height := h2.2.2.2.2.2
  have hse : s.y + s.height ≤ shelvesEnd n shelves := h1.2.2
  omega

/-- Everything the packer invariant gives about each placed rectangle. -/
theorem WF_bounds {p : Packer} (h : p.WF) : ∀ r ∈ p.allPlaced, rectInBounds r p := by
  intro r hr
  obtain ⟨hst, hend, hle⟩ := h
  have := stacked_bounds p.shelves hst r hr
  exact ⟨this.1, by omega⟩

/-- The packer invariant makes every pair of placed rectangles disjoint. -/
theorem WF_disjoint {p : Packer} (h : p.WF) : p.allPlaced.Pairwise rectDisjoint :=
  stacked_disjoint p.shelves h.1

theorem shelvesEnd_set (shelves : List Shelf) : ∀ {i : Nat} {s s' : Shelf} {n : Nat},
    shelves.get? i = some s → s'.height = s.height →
    shelvesEnd n (shelves.set i s') = shelvesEnd n shelves := by
  induction shelves with
  | nil =>
    intro i s s' n hg _
    cases hg
  | cons s0 rest ih =>
    intro i s s' n hg hh
    cases i with
    | zero =>
      simp only [List.get?] at hg
      injection hg with hg
      subst hg
      simp only [List.set, shelvesEnd, hh]
    | succ j =>
      simp only [List.get?] at hg
      simp only [List.set, shelvesEnd]
      exact ih hg hh

theorem stacked_set {width : Nat} (shelves : List Shelf) : ∀ {i : Nat} {s s' : Shelf} {n : Nat},
    stacked width n shelves → shelves.get? i = some s →
    s'.y = s.y → s'.height = s.height → ShelfWF width s' →
    stacked width n (shelves.set i s') := by
  induction shelves with
  | nil =>
    intro i s s' n _ hg _ _ _
    cases hg
  | cons s0 rest ih =>
    intro i s s' n hst hg hy hh hwf
    simp only [stacked] at hst
    obtain ⟨hy0, hwf0, hrest⟩ := hst
    cases i with
    | zero =>
      simp only [List.get?] at hg
      injection hg with hg
      subst hg
      simp only [List.set, stacked]
      exact ⟨by rw [hy, hy0], hwf, by rw [hh]; exact hrest⟩
    | succ j =>
      simp only [List.get?] at hg
      simp only [List.set, stacked]
      exact ⟨hy0, hwf0, ih hrest hg hy hh hwf⟩

theorem joinRects_set_mono (shelves : List Shelf) : ∀ {i : Nat} {s s' : Shelf},
    shelves.get? i = some s → (∀ a ∈ s.rects, a ∈ s'.rects) →
    ∀ a ∈ joinRects shelves, a ∈ joinRects (shelves.set i s') := by
  induction shelves with
  | nil =>
    intro i s s' hg _ a ha
    cases hg
  | cons s0 rest ih =>
    intro i s s' hg hsub a ha
    rw [joinRects_cons] at ha
    cases i with
    | zero =>
      simp only [List.get?] at hg
      injection hg with hg
      subst hg
      simp only [List.set, joinRects_cons]
      rcases List.mem_append.mp ha with h0 | h1
      · exact List.mem_append_left _ (hsub a h0)
      · exact List.mem_append_right _ h1
    | succ j =>
      simp only [List.get?] at hg
      simp only [List.set, joinRects_cons]
      rcases List.mem_append.mp ha with h0 | h1
      · exact List.mem_append_left _ h0
      · exact List.mem_append_right _ (ih hg hsub a h1)

theorem joinRects_set_mem (shelves : List Shelf) : ∀ {i : Nat} {s s' : Shelf} {r : AtlasRect},
    shelves.get? i = some s → r ∈ s'.rects → r ∈ joinRects (shelves.set i s') := by
  induction shelves with
  | nil =>
    intro i s s' r hg _
    cases hg
  | cons s0 rest ih =>
    intro i s s' r hg hr
    cases i with
    | zero =>
      simp only [List.set, joinRects_cons]
      exact List.mem_append_left _ hr
    | succ j =>
      simp only [List.get?] at hg
      simp only [List.set, joinRects_cons]
      exact List.mem_append_right _ (ih hg hr)

theorem set_rect_disjoint {width : Nat} (shelves : List Shelf) :
    ∀ {i : Nat} {s : Shelf} {n w h : Nat},
    stacked width n shelves → shelves.get? i = some s → h ≤ s.height →
    ∀ a ∈ joinRects shelves, rectDisjoint a ⟨s.fill, s.y, w, h⟩ := by
  induction shelves with
  | nil =>
    intro i s n w h _ hg _ a ha
    cases hg
  | cons s0 rest ih =>
    intro i s n w h hst hg hh a ha
    simp only [stacked] at hst
    obtain ⟨hy0, hwf0, hrest⟩ := hst
    rw [joinRects_cons] at ha
    cases i with
    | zero =>
      simp only [List.get?] at hg
      injection hg with hg
      subst hg
      rcases List.mem_append.mp ha with h0 | h1
      · -- same shelf: the new rectangle starts at the current fill
        have := (tiles_mem s0.rects hwf0.2.2 a h0).2.1
        exact Or.inl this
      · -- later shelf: vertical separation below this shelf's band
        obtain ⟨s', hs', has'⟩ := mem_joinRects.mp h1
        have h2 := stacked_shelf_mem rest hrest s' hs'
        have h3 := tiles_mem s'.rects h2.1.2.2 a has'
        have hay : a.y = s'.y := h3.2.2.1
        right; right; right
        show s0.y + h ≤ a.y
        have := h2.2.1
        omega
    | succ j =>
      simp only [List.get?] at hg
      rcases List.mem_append.mp ha with h0 | h1
      · -- earlier shelf: the target shelf lies strictly below this band
        have h2 := stacked_shelf_mem rest hrest s (List.get?_mem hg)
        have h3 := tiles_mem s0.rects hwf0.2.2 a h0
        have hay : a.y = s0.y := h3.2.2.1
        have hah : a.height ≤ s0.height := h3.2.2.2.2.2
        right; right; left
        show a.y + a.height ≤ s.y
        have := h2.2.1
        omega
      · exact ih hrest hg hh a h1

theorem stacked_append {width : Nat} (shelves : List Shelf) :
    ∀ {n : Nat} {ns : Shelf}, stacked width n shelves → ShelfWF width ns →
    ns.y = shelvesEnd n shelves → stacked width n (shelves ++ [ns]) := by
  induction shelves with
  | nil =>
    intro n ns _ hwf hy
    exact ⟨hy, hwf, trivial⟩
  | cons s0 rest ih =>
    intro n ns hst hwf hy
    simp only [stacked] at hst
    simp only [List.cons_append, stacked]
    obtain ⟨h1, h2, h3⟩ := hst
    exact ⟨h1, h2, ih h3 hwf (by simpa only [shelvesEnd] using hy)⟩

theorem shelvesEnd_append (shelves : List Shelf) : ∀ {n : Nat} {ns : Shelf},
    shelvesEnd n (shelves ++ [ns]) = shelvesEnd n shelves + ns.height := by
  induction shelves with
  | nil =>
    intro n ns
    rfl
  | cons s0 rest ih =>
    intro n ns
    simp only [List.cons_append, shelvesEnd]
    exact ih

theorem joinRects_append (shelves : List Shelf) (ns : Shelf) :
    joinRects (shelves ++ [ns]) = joinRects shelves ++ ns.rects := by
  simp [joinRects]

theorem append_rect_disjoint {width : Nat} (shelves : List Shelf) {n : Nat}
    (hst : stacked width n shelves) {r : AtlasRect} (hr : shelvesEnd n shelves ≤ r.y) :
    ∀ a ∈ joinRects shelves, rectDisjoint a r := by
  intro a ha
  have := stacked_bounds shelves hst a ha
  right; right; left
  omega

theorem pickBest_go_mem (width w h : Nat) (cands : List (Nat × Shelf)) :
    ∀ {acc : Option (Nat × Shelf)} {c : Nat × Shelf},
    cands.foldl
        (fun best c' =>
          match best with
          | none => some c'
          | some b =>
            if keyLt (shelfKey width w h c'.2) (shelfKey width w h b.2) then some c'
            else some b)
        acc = some c →
    acc = some c ∨ c ∈ cands := by
  induction cands with
  | nil =>
    intro acc c hfold
    exact Or.inl hfold
  | cons c0 rest ih =>
    intro acc c hfold
    simp only [List.foldl] at hfold
    rcases ih hfold with hacc | hmem
    · cases acc with
      | none =>
        simp only [] at hacc
        injection hacc with hacc
        exact Or.inr (by rw [← hacc]; exact List.mem_cons_self c0 rest)
      | some b =>
        simp only [] at hacc
        split at hacc
        · injection hacc with hacc
          exact Or.inr (by rw [← hacc]; exact List.mem_cons_self c0 rest)
        · exact Or.inl hacc
    · exact Or.inr (List.mem_cons_of_mem c0 hmem)

theorem pickBest_mem {width w h : Nat} {cands : List (Nat × Shelf)} {c : Nat × Shelf}
    (hp : pickBest width w h cands = some c) : c ∈ cands := by
  rcases pickBest_go_mem width w h cands hp with h0 | h1
  · cases h0
  · exact h1

theorem withIdx_get (l : List Shelf) : ∀ {k i : Nat} {s : Shelf},
    (i, s) ∈ withIdx k l → ∃ j, i = k + j ∧ l.get? j = some s := by
  induction l with
  | nil =>
    intro k i s hmem
    cases hmem
  | cons s0 rest ih =>
    intro k i s hmem
    simp only [withIdx] at hmem
    rcases List.mem_cons.mp hmem with heq | hmem'
    · have h1 : i = k ∧ s = s0 := by
        constructor
        · exact congrArg Prod.fst heq
        · exact congrArg Prod.snd heq
      refine ⟨0, by omega, ?_⟩
      rw [h1.2]
      rfl
    · obtain ⟨j, hj, hg⟩ := ih hmem'
      exact ⟨j + 1, by omega, hg⟩

theorem allocate_growth_le {p : Packer} {w h nh : Nat}
    (he : p.allocate w h = AllocResult.growthRequired nh) :
    p.atlasHeight ≤ nh ∧ p.usedHeight ≤ nh := by
  unfold Packer.allocate at he
  split at he
  · cases he
  · split at he
    · cases he
    · split at he
      · next hc1 hc2 =>
        injection he with hnh
        subst hnh
        omega
      · cases he

theorem allocate_placed_props {p : Packer} {w h : Nat} {r : AtlasRect} {p' : Packer}
    (hWF : p.WF) (hw : 0 < w) (hwle : w ≤ p.width) (hh : 0 < h)
    (he : p.allocate w h = AllocResult.placed r p') :
    p'.WF ∧ p'.width = p.width ∧ p'.atlasHeight = p.atlasHeight ∧
      (∀ a ∈ p.allPlaced, a ∈ p'.allPlaced) ∧ r ∈ p'.allPlaced ∧
      (∀ a ∈ p.allPlaced, rectDisjoint a r) := by
  obtain ⟨hst, hend, hle⟩ := hWF
  unfold Packer.allocate at he
  split at he
  · next is heq =>
    injection he with her hep
    subst her
    subst hep
    have hmem := pickBest_mem heq
    rw [List.mem_filter] at hmem
    obtain ⟨hin, hfit⟩ := hmem
    obtain ⟨j, hj, hget⟩ := withIdx_get p.shelves hin
    have hget' : p.shelves.get? is.1 = some is.2 := by
      rw [show is.1 = j by omega]
      exact hget
    simp only [shelfFits, Bool.and_eq_true, decide_eq_true_eq] at hfit
    obtain ⟨hfh, hfw⟩ := hfit
    have hwfs : ShelfWF p.width
        { is.2 with
            fill := is.2.fill + w, rects := is.2.rects ++ [⟨is.2.fill, is.2.y, w, h⟩] } := by
      have h0 := (stacked_shelf_mem p.shelves hst is.2 (List.get?_mem hget')).1
      exact ⟨h0.1, hfw, tiles_append is.2.rects h0.2.2 hw hh hfh⟩
    refine ⟨⟨stacked_set p.shelves hst hget' rfl rfl hwfs, ?_, hle⟩, rfl, rfl, ?_, ?_, ?_⟩
    · exact hend.trans
        (@shelvesEnd_set p.shelves is.1 is.2
          { is.2 with
              fill := is.2.fill + w, rects := is.2.rects ++ [⟨is.2.fill, is.2.y, w, h⟩] }
          0 hget' rfl).symm
    · exact fun a ha =>
        joinRects_set_mono p.shelves hget' (fun a' ha' => List.mem_append_left _ ha') a ha
    · exact joinRects_set_mem p.shelves hget'
        (List.mem_append_right _ (List.mem_singleton_self _))
    · exact fun a ha => set_rect_disjoint p.shelves hst hget' hfh a ha
  · next heq =>
    split at he
    · next hcond =>
      injection he with her hep
      subst her
      subst hep
      have hwfs : ShelfWF p.width
          ({ y := p.usedHeight, height := h, fill := w,
             rects := [⟨0, p.usedHeight, w, h⟩] } : Shelf) :=
        ⟨hh, hwle, rfl, rfl, hw, hh, le_refl h, Nat.zero_add w⟩
      refine ⟨⟨stacked_append p.shelves hst hwfs hend, ?_, hcond⟩, rfl, rfl, ?_, ?_, ?_⟩
      · exact (congrArg (fun t => t + h) hend).trans
          (@shelvesEnd_append p.shelves 0
            { y := p.usedHeight, height := h, fill := w,
              rects := [⟨0, p.usedHeight, w, h⟩] }).symm
      · intro a ha
        have : a ∈ joinRects p.shelves ++
            ({ y := p.usedHeight, height := h, fill := w,
               rects := [⟨0, p.usedHeight, w, h⟩] } : Shelf).rects :=
          List.mem_append_left _ ha
        rw [← joinRects_append] at this
        exact this
      · have : (⟨0, p.usedHeight, w, h⟩ : AtlasRect) ∈ joinRects p.shelves ++
            ({ y := p.usedHeight, height := h, fill := w,
               rects := [⟨0, p.usedHeight, w, h⟩] } : Shelf).rects :=
          List.mem_append_right _ (List.mem_singleton_self _)
        rw [← joinRects_append] at this
        exact this
      · exact fun a ha => append_rect_disjoint p.shelves hst (le_of_eq hend.symm) a ha
    · split at he
      · cases he
      · cases he

theorem allocate_mono {p : Packer} {w h : Nat} {r : AtlasRect} {p' : Packer}
    (he : p.allocate w h = AllocResult.placed r p') :
    ∀ a ∈ p.allPlaced, a ∈ p'.allPlaced := by
  unfold Packer.allocate at he
  split at he
  · next is heq =>
    injection he with her hep
    subst her
    subst hep
    have hmem := pickBest_mem heq
    rw [List.mem_filter] at hmem
    obtain ⟨j, hj, hget⟩ := withIdx_get p.shelves hmem.1
    have hget' : p.shelves.get? is.1 = some is.2 := by
      rw [show is.1 = j by omega]
      exact hget
    exact fun a ha =>
      joinRects_set_mono p.shelves hget' (fun a' ha' => List.mem_append_left _ ha') a ha
  · split at he
    · injection he with her hep
      subst her
      subst hep
      intro a ha
      have : a ∈ joinRects p.shelves ++
          ({ y := p.usedHeight, height := h, fill := w,
             rects := [⟨0, p.usedHeight, w, h⟩] } : Shelf).rects :=
        List.mem_append_left _ ha
      rw [← joinRects_append] at this
      exact this
    · split at he
      · cases he
      · cases he

theorem allocateGrow_props {p : Packer} {w h : Nat} {r : AtlasRect} {p' : Packer} {grew : Bool}
    (hWF : p.WF) (hw : 0 < w) (hwle : w ≤ p.width) (hh : 0 < h)
    (he : p.allocateGrow w h = some (r, p', grew)) :
    p'.WF ∧ p'.width = p.width ∧ p.atlasHeight ≤ p'.atlasHeight ∧
      (∀ a ∈ p.allPlaced, a ∈ p'.allPlaced) ∧ r ∈ p'.allPlaced ∧
      (∀ a ∈ p.allPlaced, rectDisjoint a r) := by
  unfold Packer.allocateGrow at he
  split at he
  · next r0 p0 heq =>
    injection he with he2
    obtain ⟨rfl, rfl, -⟩ : r0 = r ∧ p0 = p' ∧ false = grew :=
      ⟨congrArg Prod.fst he2, congrArg (fun x => x.2.1) he2, congrArg (fun x => x.2.2) he2⟩
    have hp := allocate_placed_props ⟨hWF.1, hWF.2.1, hWF.2.2⟩ hw hwle hh heq
    exact ⟨hp.1, hp.2.1, le_of_eq hp.2.2.1.symm, hp.2.2.2⟩
  · next nh heq =>
    split at he
    · next r0 p0 heq2 =>
      injection he with he2
      obtain ⟨rfl, rfl, -⟩ : r0 = r ∧ p0 = p' ∧ true = grew :=
        ⟨congrArg Prod.fst he2, congrArg (fun x => x.2.1) he2, congrArg (fun x => x.2.2) he2⟩
      have hg := allocate_growth_le heq
      have hWF2 : (p.grow nh).WF := ⟨hWF.1, hWF.2.1, hg.2⟩
      have hp := allocate_placed_props hWF2 hw hwle hh heq2
      refine ⟨hp.1, hp.2.1, ?_, hp.2.2.2⟩
      rw [hp.2.2.1]
      exact hg.1
    · cases he
  · cases he

theorem allocateGrow_mono {p : Packer} {w h : Nat} {out : AtlasRect × Packer × Bool}
    (he : p.allocateGrow w h = some out) :
    ∀ a ∈ p.allPlaced, a ∈ out.2.1.allPlaced := by
  unfold Packer.allocateGrow at he
  split at he
  · next r0 p0 heq =>
    injection he with he2
    subst he2
    exact fun a ha => allocate_mono heq a ha
  · next nh heq =>
    split at he
    · next r0 p0 heq2 =>
      injection he with he2
      subst he2
      exact fun a ha => allocate_mono heq2 a ha
    · cases he
  · cases he

theorem runAllocs_props (reqs : List (Nat × Nat)) : ∀ {p : Packer},
    p.WF → (∀ wh ∈ reqs, 0 < wh.1 ∧ wh.1 ≤ p.width ∧ 0 < wh.2) →
    (runAllocs p reqs).2.WF ∧
      (runAllocs p reqs).2.width = p.width ∧
      p.atlasHeight ≤ (runAllocs p reqs).2.atlasHeight ∧
      (∀ a ∈ p.allPlaced, a ∈ (runAllocs p reqs).2.allPlaced) ∧
      (∀ a ∈ (runAllocs p reqs).1, a ∈ (runAllocs p reqs).2.allPlaced) ∧
      (∀ a ∈ p.allPlaced, ∀ b ∈ (runAllocs p reqs).1, rectDisjoint a b) ∧
      (runAllocs p reqs).1.Pairwise rectDisjoint := by
  induction reqs with
  | nil =>
    intro p hWF _
    refine ⟨hWF, rfl, le_refl _, fun a ha => ha, ?_, ?_, List.Pairwise.nil⟩
    · intro a ha
      simp [runAllocs] at ha
    · intro a _ b hb
      simp [runAllocs] at hb
  | cons wh rest ih =>
    intro p hWF hreq
    have hv := hreq wh (List.mem_cons_self wh rest)
    rcases heq : p.allocateGrow wh.1 wh.2 with - | ⟨r, p2, grew⟩
    · have hrw : runAllocs p (wh :: rest) = runAllocs p rest := by
        simp [runAllocs, heq]
      rw [hrw]
      exact ih hWF fun x hx => hreq x (List.mem_cons_of_mem wh hx)
    · have hrw : runAllocs p (wh :: rest) =
          (r :: (runAllocs p2 rest).1, (runAllocs p2 rest).2) := by
        simp [runAllocs, heq]
      rw [hrw]
      obtain ⟨hWF2, hwidth2, hah2, hmono, hmem, hdisj⟩ :=
        allocateGrow_props hWF hv.1 hv.2.1 hv.2.2 heq
      have hvtail : ∀ x ∈ rest, 0 < x.1 ∧ x.1 ≤ p2.width ∧ 0 < x.2 := by
        intro x hx
        have hx2 := hreq x (List.mem_cons_of_mem wh hx)
        rw [hwidth2]
        exact hx2
      obtain ⟨i1, i2, i3, i4, i5, i6, i7⟩ := ih hWF2 hvtail
      refine ⟨i1, by rw [i2]; exact hwidth2, le_trans hah2 i3,
        fun a ha => i4 a (hmono a ha), ?_, ?_, ?_⟩
      · intro a ha
        rcases List.mem_cons.mp ha with rfl | ha'
        · exact i4 a hmem
        · exact i5 a ha'
      · intro a ha b hb
        rcases List.mem_cons.mp hb with rfl | hb'
        · exact hdisj a ha
        · exact i6 a (hmono a ha) b hb'
      · exact List.Pairwise.cons (fun b hb => i6 r hmem b hb) i7

/-! ## Claim theorems: texture upload API -/

/-- **C10**: for every `Texture` `t` and data slice `data`,
`t.replace_data(ctx, data)` is observationally identical to
`t.set_data(ctx, 0, 0, t.width(), t.height(), data)`: the same result
value and the same device effect (the two calls are equal as state
transformers). -/
theorem replace_data_eq_set_data (t : Texture) (ctx : Context) (data : List Nat) :
    t.replace_data ctx data = t.set_data ctx 0 0 t.width t.height data := rfl

/-- **C9**: every `Texture` built through `Texture::with_device` (the path
used by `new`, `from_file_data` and `from_rgba`) reports
`FilterMode::Linear` from `filter_mode()` immediately after construction,
regardless of the filter mode that was applied to the GPU device; by
contrast `with_device_empty` stores the passed filter mode. -/
theorem with_device_filter_mode_linear :
    (∀ (device : GraphicsDevice) (width height : Int) (data : List Nat)
        (fm : FilterMode) (t : Texture) (d : GraphicsDevice),
        Texture.with_device device width height data fm = Except.ok (t, d) →
        t.filter_mode = FilterMode.Linear) ∧
    (∀ (device : GraphicsDevice) (width height : Int) (fm : FilterMode)
        (t : Texture) (d : GraphicsDevice),
        Texture.with_device_empty device width height fm = Except.ok (t, d) →
        t.filter_mode = fm) := by
  constructor
  · intro device width height data fm t d he
    unfold Texture.with_device at he
    split at he
    · cases he
    · injection he with he2
      have ht := congrArg Prod.fst he2
      dsimp only at ht
      rw [← ht]
      rfl
  · intro device width height fm t d he
    unfold Texture.with_device_empty at he
    injection he with he2
    have ht := congrArg Prod.fst he2
    dsimp only at ht
    rw [← ht]
    rfl

/-- Witness for **C9**: a concrete construction with `Nearest` requested
still reports `Linear`, while `with_device_empty` keeps `Nearest`. -/
theorem with_device_filter_mode_linear_witness :
    Texture.filter_mode
        ⟨{ handle := ⟨0, 1, 1⟩, filter_mode := FilterMode.Linear }⟩ = FilterMode.Linear ∧
      Texture.filter_mode
        ⟨{ handle := ⟨0, 1, 1⟩, filter_mode := FilterMode.Nearest }⟩ = FilterMode.Nearest :=
  ⟨with_device_filter_mode_linear.1 ⟨0, []⟩ 1 1 [0, 0, 0, 0] FilterMode.Nearest
      ⟨{ handle := ⟨0, 1, 1⟩, filter_mode := FilterMode.Linear }⟩
      ⟨1, [DeviceEvent.newTexture ⟨0, 1, 1⟩,
        DeviceEvent.uploadData ⟨0, 1, 1⟩ 0 0 1 1 [0, 0, 0, 0],
        DeviceEvent.setFilter ⟨0, 1, 1⟩ FilterMode.Nearest]⟩ rfl,
    with_device_filter_mode_linear.2 ⟨0, []⟩ 1 1 FilterMode.Nearest
      ⟨{ handle := ⟨0, 1, 1⟩, filter_mode := FilterMode.Nearest }⟩
      ⟨1, [DeviceEvent.newTexture ⟨0, 1, 1⟩,
        DeviceEvent.setFilter ⟨0, 1, 1⟩ FilterMode.Nearest]⟩ rfl⟩

/-- **C5**: when the caller supplies fewer bytes than required to fill the
target region, `set_data`, `replace_data` and construction via
`with_device` / `from_rgba` return a `NotEnoughData` error (never
silently zero-filling), and on a construction failure no `Texture` value
is returned (the result is the error, not an `ok`). -/
theorem not_enough_data_surfaced :
    (∀ (t : Texture) (ctx : Context) (x y width height : Int) (data : List Nat),
        data.length < (width * height * 4).toNat →
        t.set_data ctx x y width height data =
          Except.error (TetraError.NotEnoughData (width * height * 4).toNat data.length)) ∧
    (∀ (t : Texture) (ctx : Context) (data : List Nat),
        data.length < (t.width * t.height * 4).toNat →
        t.replace_data ctx data =
          Except.error (TetraError.NotEnoughData (t.width * t.height * 4).toNat data.length)) ∧
    (∀ (device : GraphicsDevice) (width height : Int) (data : List Nat) (fm : FilterMode),
        data.length < (width * height * 4).toNat →
        Texture.with_device device width height data fm =
          Except.error (TetraError.NotEnoughData (width * height * 4).toNat data.length)) ∧
    (∀ (ctx : Context) (width height : Int) (data : List Nat),
        data.length < (width * height * 4).toNat →
        Texture.from_rgba ctx width height data =
          Except.error (TetraError.NotEnoughData (width * height * 4).toNat data.length)) := by
  refine ⟨?_, ?_, ?_, ?_⟩
  · intro t ctx x y width height data h
    simp [Texture.set_data, GraphicsDevice.set_texture_data, h, Except.map]
  · intro t ctx data h
    simp [Texture.replace_data, Texture.set_data, Texture.size, Texture.width,
      Texture.height, GraphicsDevice.set_texture_data, Except.map] at h ⊢
    simp [h]
  · intro device width height data fm h
    unfold Texture.with_device
    simp [GraphicsDevice.set_texture_data, h]
  · intro ctx width height data h
    unfold Texture.from_rgba Texture.with_device
    simp [GraphicsDevice.set_texture_data, h, Except.map]

/-- Witness for **C5**: a 2×2 texture region needs 16 bytes; supplying
none yields the `NotEnoughData` error from all entry points. -/
theorem not_enough_data_surfaced_witness :
    Texture.set_data ⟨{ handle := ⟨0, 2, 2⟩, filter_mode := FilterMode.Linear }⟩
        ⟨⟨1, []⟩, ⟨FilterMode.Nearest⟩⟩ 0 0 2 2 [] =
      Except.error (TetraError.NotEnoughData 16 0) ∧
    Texture.replace_data ⟨{ handle := ⟨0, 2, 2⟩, filter_mode := FilterMode.Linear }⟩
        ⟨⟨1, []⟩, ⟨FilterMode.Nearest⟩⟩ [] =
      Except.error (TetraError.NotEnoughData 16 0) ∧
    Texture.with_device ⟨0, []⟩ 2 2 [] FilterMode.Nearest =
      Except.error (TetraError.NotEnoughData 16 0) ∧
    Texture.from_rgba ⟨⟨0, []⟩, ⟨FilterMode.Nearest⟩⟩ 2 2 [] =
      Except.error (TetraError.NotEnoughData 16 0) :=
  ⟨not_enough_data_surfaced.1 _ _ 0 0 2 2 [] (by decide),
    not_enough_data_surfaced.2.1 _ _ [] (by decide),
    not_enough_data_surfaced.2.2.1 _ 2 2 [] FilterMode.Nearest (by decide),
    not_enough_data_surfaced.2.2.2 _ 2 2 [] (by decide)⟩

/-! ## Claim theorems: rectangle packer -/

/-- **C6**: for every sequence of packer allocation requests with positive
sizes whose widths do not exceed the fixed atlas width, all successfully
returned `AtlasRect`s are pairwise non-overlapping and each lies fully
within the atlas's current (final) bounds; and an already-placed
rectangle is never removed or altered by a later allocation (positions
never change for the lifetime of the atlas). -/
theorem packer_allocation_sound (width maxH initH : Nat) (reqs : List (Nat × Nat))
    (hreqs : ∀ wh ∈ reqs, 0 < wh.1 ∧ wh.1 ≤ width ∧ 0 < wh.2) :
    (runAllocs (Packer.new width maxH initH) reqs).1.Pairwise rectDisjoint ∧
    (∀ r ∈ (runAllocs (Packer.new width maxH initH) reqs).1,
        rectInBounds r (runAllocs (Packer.new width maxH initH) reqs).2) ∧
    (∀ (p : Packer) (w h : Nat) (out : AtlasRect × Packer × Bool),
        p.allocateGrow w h = some out → ∀ a ∈ p.allPlaced, a ∈ out.2.1.allPlaced) := by
  have hWF0 : (Packer.new width maxH initH).WF := ⟨trivial, rfl, Nat.zero_le _⟩
  obtain ⟨f1, f2, f3, f4, f5, f6, f7⟩ := runAllocs_props reqs hWF0 hreqs
  refine ⟨f7, ?_, ?_⟩
  · intro r hr
    exact WF_bounds f1 r (f5 r hr)
  · intro p w h out he a ha
    exact allocateGrow_mono he a ha

/-- Witness for **C6**: three 8×8 requests into a 16-wide atlas of
initial height 8 (the third forces a new shelf and a growth to 16). -/
theorem packer_allocation_sound_witness :
    (∀ wh ∈ ([(8, 8), (8, 8), (8, 8)] : List (Nat × Nat)),
        0 < wh.1 ∧ wh.1 ≤ 16 ∧ 0 < wh.2) ∧
    (runAllocs (Packer.new 16 64 8) [(8, 8), (8, 8), (8, 8)]).1.Pairwise rectDisjoint :=
  ⟨by decide, (packer_allocation_sound 16 64 8 [(8, 8), (8, 8), (8, 8)] (by decide)).1⟩

/-! ## Claim theorems: glyph atlas -/

theorem lookupGlyph_append_of_none {m : List (Char × AtlasRect)} {g : Char}
    (h : lookupGlyph m g = none) (r : AtlasRect) :
    lookupGlyph (m ++ [(g, r)]) g = some r := by
  induction m with
  | nil =>
    simp [lookupGlyph]
  | cons cr rest ih =>
    simp only [lookupGlyph, List.cons_append] at h ⊢
    split at h
    · cases h
    · next hne =>
      rw [if_neg hne]
      exact ih h

/-- **C7**: `place` is idempotent: for every glyph id already present in
the atlas mapping, `place` returns the mapped `AtlasRect` with the atlas
state unchanged (no packer allocation, no generation increment); in
particular a second `place` call after a successful one returns the
identical `AtlasRect` and leaves the atlas untouched. -/
theorem atlas_place_idempotent :
    (∀ (a : GlyphAtlas) (g : Char) (w h : Nat) (r : AtlasRect),
        lookupGlyph a.mapping g = some r → a.place g w h = some (r, a)) ∧
    (∀ (a : GlyphAtlas) (g : Char) (w h w2 h2 : Nat) (r : AtlasRect) (a2 : GlyphAtlas),
        a.place g w h = some (r, a2) → a2.place g w2 h2 = some (r, a2)) := by
  constructor
  · intro a g w h r hl
    unfold GlyphAtlas.place
    rw [hl]
  · intro a g w h w2 h2 r a2 hp
    unfold GlyphAtlas.place at hp ⊢
    split at hp
    · next rect heq =>
      injection hp with hp2
      have h1 := congrArg Prod.fst hp2
      have h2 := congrArg Prod.snd hp2
      dsimp only at h1 h2
      rw [← h2, ← h1, heq]
    · next heq =>
      split at hp
      · next rpg heq2 =>
        injection hp with hp2
        have h1 := congrArg Prod.fst hp2
        have h2 := congrArg Prod.snd hp2
        dsimp only at h1 h2
        rw [← h2, ← h1]
        dsimp only
        rw [lookupGlyph_append_of_none heq rpg.1]
      · cases hp

/-- Witness for **C7**: a concrete atlas with glyph `A` already mapped. -/
theorem atlas_place_idempotent_witness :
    lookupGlyph
        (GlyphAtlas.mapping
          ⟨Packer.new 16 64 8, [('A', ⟨0, 0, 8, 8⟩)], 0, 0⟩) 'A' =
      some ⟨0, 0, 8, 8⟩ ∧
    GlyphAtlas.place ⟨Packer.new 16 64 8, [('A', ⟨0, 0, 8, 8⟩)], 0, 0⟩ 'A' 8 8 =
      some (⟨0, 0, 8, 8⟩, ⟨Packer.new 16 64 8, [('A', ⟨0, 0, 8, 8⟩)], 0, 0⟩) :=
  ⟨by decide,
    atlas_place_idempotent.1 ⟨Packer.new 16 64 8, [('A', ⟨0, 0, 8, 8⟩)], 0, 0⟩
      'A' 8 8 ⟨0, 0, 8, 8⟩ (by decide)⟩

/-! ## Text lemmas -/

theorem render_resize_count (fc : FontCache) (content : String) :
    (fc.render content).1.resize_count = (fc.render content).2.resize_count := rfl

theorem update_geometry_render_of_stale (t : Text)
    (h : ∀ g, t.geometry = some g → g.resize_count ≠ t.font.resize_count) :
    t.update_geometry =
      ({ t with
          geometry := some (t.font.render t.content).1,
          font := (t.font.render t.content).2 }, true) := by
  obtain ⟨c, f, geo⟩ := t
  rcases geo with - | g
  · rfl
  · have hne := h g rfl
    have hb : (g.resize_count != f.resize_count) = true := bne_iff_ne.mpr hne
    unfold Text.update_geometry
    dsimp only
    rw [hb]
    rfl

theorem update_geometry_skip_of_fresh (t : Text) (g : TextGeometry)
    (hg : t.geometry = some g) (h : g.resize_count = t.font.resize_count) :
    t.update_geometry = (t, false) := by
  obtain ⟨c, f, geo⟩ := t
  dsimp only at hg
  subst hg
  have hb : (g.resize_count != f.resize_count) = false := by
    simp only [bne_eq_false_iff_eq]
    exact h
  unfold Text.update_geometry
  dsimp only
  rw [hb]
  rfl

theorem update_geometry_some (t : Text) :
    ∃ g, (t.update_geometry).1.geometry = some g ∧
      g.resize_count = (t.update_geometry).1.font.resize_count := by
  by_cases hst : ∀ g, t.geometry = some g → g.resize_count ≠ t.font.resize_count
  · rw [update_geometry_render_of_stale t hst]
    exact ⟨(t.font.render t.content).1, rfl, render_resize_count t.font t.content⟩
  · push_neg at hst
    obtain ⟨g, hg, heq⟩ := hst
    rw [update_geometry_skip_of_fresh t g hg heq]
    exact ⟨g, hg, heq⟩

theorem draw_char (t : Text) (params : DrawParams) {g : TextGeometry}
    (hg : (t.update_geometry).1.geometry = some g) :
    t.draw params = some ((t.update_geometry).1,
      (if (t.update_geometry).2 then [DrawEvent.rendered] else []) ++
        DrawEvent.setTexture ((t.update_geometry).1.font.textureId) ::
          g.quads.map (quadEvent params)) := by
  unfold Text.draw
  rcases hu : t.update_geometry with ⟨t1, d⟩
  rw [hu] at hg
  dsimp only at hg ⊢
  rw [hg]

theorem get_bounds_char (t : Text) {g : TextGeometry}
    (hg : (t.update_geometry).1.geometry = some g) :
    t.get_bounds = some ((t.update_geometry).1, g.bounds) := by
  unfold Text.get_bounds
  rcases hu : t.update_geometry with ⟨t1, d⟩
  rw [hu] at hg
  dsimp only at hg ⊢
  rw [hg]

theorem filter_push_quadEvents (params : DrawParams) (qs : List Quad) :
    (qs.map (quadEvent params)).filter DrawEvent.isPush = qs.map (quadEvent params) :=
  List.filter_eq_self.mpr fun e he => by
    obtain ⟨q, -, rfl⟩ := List.mem_map.mp he
    rfl

/-! ## Claim theorems: text object -/

/-- **C2**: immediately after any single call to `set_content`,
`set_font`, `push`, `push_str` or `pop`, the cached geometry is `None` —
the cache is dropped eagerly at mutation time, before any subsequent
draw, regardless of whether the new content differs from the old. -/
theorem text_mutation_drops_geometry (t : Text) (c : String) (f : FontCache)
    (ch : Char) (s : String) :
    (t.set_content c).geometry = none ∧
    (t.set_font f).geometry = none ∧
    (t.push ch).geometry = none ∧
    (t.push_str s).geometry = none ∧
    (t.pop).1.geometry = none := by
  refine ⟨rfl, rfl, rfl, rfl, ?_⟩
  unfold Text.pop
  split <;> rfl

/-- **C8**: after `Text::update_geometry` the geometry is always `Some` —
including for empty content — so the
`expect("geometry should have been generated")` branches in `draw` and
`get_bounds` are unreachable and those methods never panic for that
reason (`draw` / `get_bounds` never return the `none` that models the
panic). -/
theorem update_geometry_always_generates (t : Text) (params : DrawParams) :
    ((t.update_geometry).1.geometry).isSome = true ∧
    (t.draw params).isSome = true ∧
    (t.get_bounds).isSome = true := by
  obtain ⟨g, hg, -⟩ := update_geometry_some t
  refine ⟨by rw [hg]; rfl, ?_, ?_⟩
  · rw [draw_char t params hg]
    rfl
  · rw [get_bounds_char t hg]
    rfl

/-- **C3**: for a `Text` whose cached geometry is present with a
generation equal to the Font Cache's current generation (the Fresh
state), `draw` / `get_bounds` perform no recomputation: `render` is not
invoked (the update step reports `false` and leaves the state unchanged)
and the cached geometry is reused as-is. -/
theorem text_fresh_reuses_cache (t : Text) (params : DrawParams) (g : TextGeometry)
    (hg : t.geometry = some g) (hfresh : g.resize_count = t.font.resize_count) :
    t.update_geometry = (t, false) ∧
    t.draw params = some (t,
      DrawEvent.setTexture t.font.textureId :: g.quads.map (quadEvent params)) ∧
    t.get_bounds = some (t, g.bounds) := by
  have hu := update_geometry_skip_of_fresh t g hg hfresh
  have hg1 : (t.update_geometry).1.geometry = some g := by
    rw [hu]
    exact hg
  refine ⟨hu, ?_, ?_⟩
  · have hd := draw_char t params hg1
    rw [hu] at hd
    simpa using hd
  · have hb := get_bounds_char t hg1
    rw [hu] at hb
    simpa using hb

/-- Witness for **C3**: a fresh cached geometry (generation 0 matching the
cache) is reused with no render. -/
theorem text_fresh_reuses_cache_witness :
    Text.update_geometry
        ⟨"", ⟨[], 10, ⟨Packer.new 16 64 8, [], 0, 0⟩⟩, some ⟨[], none, 0⟩⟩ =
      (⟨"", ⟨[], 10, ⟨Packer.new 16 64 8, [], 0, 0⟩⟩, some ⟨[], none, 0⟩⟩, false) :=
  (text_fresh_reuses_cache
      ⟨"", ⟨[], 10, ⟨Packer.new 16 64 8, [], 0, 0⟩⟩, some ⟨[], none, 0⟩⟩
      ⟨(0, 0), (1, 1), (0, 0), 0⟩ ⟨[], none, 0⟩ rfl rfl).1

/-- **C1**: after any operation that changed the Font Cache's generation
(so that the cached generation no longer matches, or there is no cached
geometry), the next `draw`/`get_bounds` invokes `render` (the update step
reports `true`) and stores geometry whose recorded generation equals the
cache's current generation at that moment; moreover any `draw` submits to
the quad batch exactly the quads of a geometry whose recorded generation
equals the cache's current generation — stale geometry is never
submitted. -/
theorem text_cache_freshness (t : Text) (params : DrawParams)
    (hstale : ∀ g, t.geometry = some g → g.resize_count ≠ t.font.resize_count) :
    (t.update_geometry).2 = true ∧
    (∃ g, (t.update_geometry).1.geometry = some g ∧
        g.resize_count = (t.update_geometry).1.font.resize_count) ∧
    (∀ (t0 t2 : Text) (evs : List DrawEvent), t0.draw params = some (t2, evs) →
        ∃ g, t2.geometry = some g ∧ g.resize_count = t2.font.resize_count ∧
          evs.filter DrawEvent.isPush = g.quads.map (quadEvent params)) ∧
    (∀ (t0 t2 : Text) (b : Option Rectangle), t0.get_bounds = some (t2, b) →
        ∃ g, t2.geometry = some g ∧ g.resize_count = t2.font.resize_count) := by
  have hu := update_geometry_render_of_stale t hstale
  refine ⟨by rw [hu], ?_, ?_, ?_⟩
  · rw [hu]
    exact ⟨(t.font.render t.content).1, rfl, render_resize_count t.font t.content⟩
  · intro t0 t2 evs hd
    obtain ⟨g, hg, hmatch⟩ := update_geometry_some t0
    have hd2 := draw_char t0 params hg
    rw [hd] at hd2
    injection hd2 with hp
    have h1 := congrArg Prod.fst hp
    have h2 := congrArg Prod.snd hp
    dsimp only at h1 h2
    refine ⟨g, ?_, ?_, ?_⟩
    · rw [h1]
      exact hg
    · rw [h1]
      exact hmatch
    · rw [h2]
      cases hdid : (t0.update_geometry).2 <;>
        simp [hdid, List.filter_append, List.filter_cons, DrawEvent.isPush,
          filter_push_quadEvents]
  · intro t0 t2 b hb
    obtain ⟨g, hg, hmatch⟩ := update_geometry_some t0
    have hb2 := get_bounds_char t0 hg
    rw [hb] at hb2
    injection hb2 with hp
    have h1 := congrArg Prod.fst hp
    dsimp only at h1
    refine ⟨g, ?_, ?_⟩
    · rw [h1]
      exact hg
    · rw [h1]
      exact hmatch

/-- Witness for **C1**: a text whose cached geometry carries a stale
generation (5, against the cache's 0) re-renders on the next update. -/
theorem text_cache_freshness_witness :
    (Text.update_geometry
        ⟨"", ⟨[], 10, ⟨Packer.new 16 64 8, [], 0, 0⟩⟩, some ⟨[], none, 5⟩⟩).2 = true :=
  (text_cache_freshness
      ⟨"", ⟨[], 10, ⟨Packer.new 16 64 8, [], 0, 0⟩⟩, some ⟨[], none, 5⟩⟩
      ⟨(0, 0), (1, 1), (0, 0), 0⟩
      (by
        intro g hg
        injection hg with h
        rw [← h]
        decide)).1

/-- **C4**: within every single `Text::draw` call, geometry generation
completes before any quad is submitted — the event trace is a prefix of
non-push events (the render, if any) followed by the `set_texture` call
and then exactly one `push_quad` per cached quad, in the order of the
geometry's quad sequence. -/
theorem text_draw_order (t : Text) (params : DrawParams) (t2 : Text)
    (evs : List DrawEvent) (hd : t.draw params = some (t2, evs)) :
    ∃ (pre : List DrawEvent) (g : TextGeometry),
      t2.geometry = some g ∧
      evs = pre ++ DrawEvent.setTexture t2.font.textureId ::
        g.quads.map (quadEvent params) ∧
      ∀ e ∈ pre, e.isPush = false := by
  obtain ⟨g, hg, -⟩ := update_geometry_some t
  have hd2 := draw_char t params hg
  rw [hd] at hd2
  injection hd2 with hp
  have h1 := congrArg Prod.fst hp
  have h2 := congrArg Prod.snd hp
  dsimp only at h1 h2
  refine ⟨(if (t.update_geometry).2 then [DrawEvent.rendered] else []), g, ?_, ?_, ?_⟩
  · rw [h1]
    exact hg
  · rw [h1]
    exact h2
  · intro e he
    cases hdid : (t.update_geometry).2
    · rw [hdid] at he
      simp at he
    · rw [hdid] at he
      simp at he
      rw [he]
      rfl

/-- Witness for **C4**: drawing an empty text renders and emits the
`set_texture` call with no quads. -/
theorem text_draw_order_witness :
    ∃ (pre : List DrawEvent) (g : TextGeometry),
      (⟨"", ⟨[], 10, ⟨Packer.new 16 64 8, [], 0, 0⟩⟩,
          some ⟨[], none, 0⟩⟩ : Text).geometry = some g ∧
      [DrawEvent.rendered, DrawEvent.setTexture 0] =
        pre ++ DrawEvent.setTexture
          (⟨"", ⟨[], 10, ⟨Packer.new 16 64 8, [], 0, 0⟩⟩,
              some ⟨[], none, 0⟩⟩ : Text).font.textureId ::
          g.quads.map (quadEvent ⟨(0, 0), (1, 1), (0, 0), 0⟩) ∧
      ∀ e ∈ pre, e.isPush = false :=
  text_draw_order ⟨"", ⟨[], 10, ⟨Packer.new 16 64 8, [], 0, 0⟩⟩, none⟩
    ⟨(0, 0), (1, 1), (0, 0), 0⟩
    ⟨"", ⟨[], 10, ⟨Packer.new 16 64 8, [], 0, 0⟩⟩, some ⟨[], none, 0⟩⟩
    [DrawEvent.rendered, DrawEvent.setTexture 0] (by decide)

end Tetra
